import Mathlib

/-!
Verification of the batch-update core of plex-added-date-manager.

The definitions below are a shallow embedding of the Python source:
`src/cli.py` (the CLI driver `main`, the enumerator `iter_ids_from_fetch`,
the retry/backoff update loop) and `src/app.py` (the `_render_items`
"Apply to selected" batch loop and `_select_range`).  Machine floats that
only ever hold exact halves/quotients (sleep durations) are modelled as ℚ;
Unix timestamps as ℤ; Python dicts keyed by strings as association lists
with dict update semantics; a remote call that may raise is a function
returning `Option Err` (`none` = success, `some e` = exception `e`).
Unbounded `while True` loops are given an explicit fuel argument together
with a proof obligation (stated in the theorems) that the fuel suffices.
-/

namespace Plex

/-- Exception text surfaced by the remote client. -/
abbrev Err := String

/-! ### Python string helpers

`strIn needle hay` models Python `needle in hay` on strings, and
`lowerStr` models `str.lower` (ASCII-faithful; the claims never exercise
non-ASCII case folding).  `pyStr` models `str(d.get("ratingKey"))` applied
to a possibly-missing string value: a missing key yields the literal
string `"None"`, mirroring `str(None)`. -/

def hasPref : List Char → List Char → Bool
  | [], _ => true
  | _ :: _, [] => false
  | c :: cs, d :: ds => c == d && hasPref cs ds

def hasSub (needle : List Char) : List Char → Bool
  | [] => hasPref needle []
  | c :: t => hasPref needle (c :: t) || hasSub needle t

def strIn (needle hay : String) : Bool := hasSub needle.data hay.data

def lowerStr (s : String) : String := String.map Char.toLower s

def pyStr : Option String → String
  | some s => s
  | none => "None"

/-! ### Catalog items and the remote fetch

A `CatalogItem` carries the fields the core reads from the JSON dicts
returned by `PlexAPI.fetch_items`: each is optional because the code
accesses them with `dict.get`.  `sliceFetch` is the canonical consistent
remote: page `start` of a fixed server-side list, paired with the reported
total, exactly the `(items, total)` contract of `fetch_items`. -/

structure CatalogItem where
  ratingKey : Option String
  title : String
  addedAt : Option Int
deriving Repr, DecidableEq

def sliceFetch (server : List CatalogItem) (pageSize start : Nat) :
    List CatalogItem × Nat :=
  ((server.drop start).take pageSize, server.length)

/-! ### The retry loop (cli.py lines 134-149, app.py lines 519-530)

`behavior k` is the outcome of the `k`-th `update_added_date` call for the
target (1-based): `none` = success, `some e` = the call raised `e`.
The loop is `while attempts < 4`, incrementing `attempts` and sleeping
`min(8, 0.5 * 2 ** (attempts - 1))` seconds after each failed call.  The
`fuel` argument bounds the number of guard checks; any fuel ≥ 5 yields the
loop's exit state (the loop checks the guard at most 5 times). -/

structure AttemptTrace where
  calls : Nat
  backoff : List ℚ
  success : Bool
  lastErr : Option Err
deriving Repr, DecidableEq

def retryGo (behavior : Nat → Option Err) :
    Nat → Nat → Option Err → List ℚ → AttemptTrace
  | 0, attempts, lastErr, sleeps => ⟨attempts, sleeps, false, lastErr⟩
  | fuel + 1, attempts, lastErr, sleeps =>
    if attempts < 4 then
      match behavior (attempts + 1) with
      | none => ⟨attempts + 1, sleeps, true, none⟩
      | some e =>
        let attempts' := attempts + 1
        retryGo behavior fuel attempts' (some e)
          (sleeps ++ [min 8 ((1 / 2 : ℚ) * 2 ^ (attempts' - 1))])
    else ⟨attempts, sleeps, false, lastErr⟩

def retryUpdate (behavior : Nat → Option Err) : AttemptTrace :=
  retryGo behavior 5 0 none []

/-! ### The CLI batch loop (cli.py lines 122-153)

Configuration mirrors the argparse surface: `maxItems` is `--max-items`
(`Option Int`: absent or any integer), `fixedSleep` is `--sleep`,
`maxPerMinute` is `--max-per-minute`, `dryRun` is `--dry-run`.  Python
truthiness tests (`if args.max_items and ...`, `if args.max_per_minute
and ...`, `if per_item_sleep:`) are modelled exactly. -/

structure BatchCfg where
  maxItems : Option Int
  fixedSleep : ℚ
  maxPerMinute : Option ℚ
  dryRun : Bool
deriving Repr, DecidableEq

def rateSleep (cfg : BatchCfg) : ℚ :=
  match cfg.maxPerMinute with
  | some m => if 0 < m then max 0 (60 / m) else 0
  | none => 0

def perItemSleep (cfg : BatchCfg) : ℚ :=
  max cfg.fixedSleep (rateSleep cfg)

def cutoffReached (maxItems : Option Int) (updated : Nat) : Bool :=
  match maxItems with
  | some m => decide (m ≠ 0) && decide (m ≤ (updated : Int))
  | none => false

/-- Models `if per_item_sleep: time.sleep(per_item_sleep)`: the sleep call
performed after an item, `none` when the (falsy) zero delay is skipped. -/
def sleepAfter (q : ℚ) : Option ℚ :=
  if q ≠ 0 then some q else none

/-- Observable per-item record of one loop iteration: the planned-update
line under `--dry-run`, the update calls and backoff sleeps, the success
flag, the failure line (identifier with last error), and the inter-item
sleep performed after the item. -/
structure ItemOutcome where
  id : String
  planned : Bool
  calls : Nat
  backoff : List ℚ
  success : Bool
  err : Option Err
  interSleep : Option ℚ
deriving Repr, DecidableEq, Inhabited

def mkDryOutcome (rk : String) (sleepQ : ℚ) : ItemOutcome :=
  ⟨rk, true, 0, [], false, none, sleepAfter sleepQ⟩

def mkRealOutcome (rk : String) (t : AttemptTrace) (sleepQ : ℚ) : ItemOutcome :=
  ⟨rk, false, t.calls, t.backoff, t.success, t.lastErr, sleepAfter sleepQ⟩

structure BatchResult where
  outcomes : List ItemOutcome
  updated : Nat
deriving Repr, DecidableEq

def BatchResult.failures (r : BatchResult) : List (String × Err) :=
  r.outcomes.filterMap fun oc => oc.err.map fun e => (oc.id, e)

def runLoopGo (behavior : String → Nat → Option Err) (cfg : BatchCfg)
    (sleepQ : ℚ) : List String → Nat → List ItemOutcome × Nat
  | [], updated => ([], updated)
  | rk :: rest, updated =>
    if cutoffReached cfg.maxItems updated then ([], updated)
    else
      let oc :=
        if cfg.dryRun then mkDryOutcome rk sleepQ
        else mkRealOutcome rk (retryUpdate (behavior rk)) sleepQ
      let updated' := if oc.success then updated + 1 else updated
      let r := runLoopGo behavior cfg sleepQ rest updated'
      (oc :: r.1, r.2)

/-- The batch update engine: the `for idx, rk in enumerate(ids)` loop of
`cli.py` `main` (and, with `fixedSleep = 0` and `dryRun = false`, the
"Apply to selected" loop of `app.py`). -/
def runBatch (behavior : String → Nat → Option Err) (cfg : BatchCfg)
    (ids : List String) : BatchResult :=
  let r := runLoopGo behavior cfg (perItemSleep cfg) ids 0
  ⟨r.1, r.2⟩

/-! ### The result enumerator (cli.py lines 50-84, `iter_ids_from_fetch`)

`fetch start` models `plex.fetch_items(..., start=start, size=page_size,
...)`.  The trace records every fetched `start` offset (to state "exactly
3 fetch calls, no 4th") alongside the yielded ids: `str(rk)` for every
item whose `ratingKey` is not `None`.  The title filter is applied per
page iff `title_contains` is truthy. -/

structure EnumTrace where
  calls : List Nat
  ids : List String
deriving Repr, DecidableEq

def cliTitleFilter (titleContains : Option String) (items : List CatalogItem) :
    List CatalogItem :=
  match titleContains with
  | some t =>
    if t = "" then items
    else items.filter fun i => strIn (lowerStr t) (lowerStr i.title)
  | none => items

def iterIdsGo (fetch : Nat → List CatalogItem × Nat) (pageSize : Nat)
    (titleContains : Option String) : Nat → Nat → EnumTrace
  | 0, _ => ⟨[], []⟩
  | fuel + 1, page =>
    let start := page * pageSize
    let (items, total) := fetch start
    if items.isEmpty then ⟨[start], []⟩
    else
      let kept := cliTitleFilter titleContains items
      let pageIds := kept.filterMap fun i => i.ratingKey
      if start + pageSize ≥ total then ⟨[start], pageIds⟩
      else
        let rest := iterIdsGo fetch pageSize titleContains fuel (page + 1)
        ⟨start :: rest.calls, pageIds ++ rest.ids⟩

def iterIdsFromFetch (fetch : Nat → List CatalogItem × Nat) (pageSize : Nat)
    (titleContains : Option String) (fuel : Nat) : EnumTrace :=
  iterIdsGo fetch pageSize titleContains fuel 0

/-! ### The CLI driver (cli.py lines 87-156, `main`)

`baseUrl`/`token` are the values after the env/flag merge; the credential
check `if not base_url or not token: return 2` precedes every remote call.
`explicitIds` is `args.ids` (`nargs="*"`: absent or a possibly-empty
list); `if args.ids:` means a present, non-empty list skips fetching. -/

structure CliArgs where
  baseUrl : String
  token : String
  explicitIds : Option (List String)
  pageSize : Nat
  titleContains : Option String
  cfg : BatchCfg
deriving Repr, DecidableEq

def resolveIds (explicitIds : Option (List String))
    (fetch : Nat → List CatalogItem × Nat) (pageSize : Nat)
    (titleContains : Option String) (fuel : Nat) : EnumTrace :=
  match explicitIds with
  | some l =>
    if l ≠ [] then ⟨[], l⟩
    else iterIdsFromFetch fetch pageSize titleContains fuel
  | none => iterIdsFromFetch fetch pageSize titleContains fuel

structure CliRun where
  exitCode : Nat
  fetchStarts : List Nat
  matched : List String
  batch : Option BatchResult
deriving Repr, DecidableEq

/-- Total number of `update_added_date` invocations of a CLI run. -/
def CliRun.updateCalls (r : CliRun) : Nat :=
  match r.batch with
  | none => 0
  | some b => (b.outcomes.map fun oc => oc.calls).sum

def cliMain (args : CliArgs) (fetch : Nat → List CatalogItem × Nat)
    (behavior : String → Nat → Option Err) (fuel : Nat) : CliRun :=
  if args.baseUrl = "" ∨ args.token = "" then ⟨2, [], [], none⟩
  else
    let en := resolveIds args.explicitIds fetch args.pageSize args.titleContains fuel
    if en.ids = [] then ⟨0, en.calls, [], none⟩
    else ⟨0, en.calls, en.ids, some (runBatch behavior args.cfg en.ids)⟩

/-! ### The selection store (app.py `st.session_state["movie_selected"]`)

A Python dict from rating key to selected flag, as an association list
with dict update semantics (replace in place, else append). -/

abbrev SelMap := List (String × Bool)

def setSel : SelMap → String → Bool → SelMap
  | [], k, v => [(k, v)]
  | (k', v') :: rest, k, v =>
    if k' = k then (k', v) :: rest else (k', v') :: setSel rest k v

def getSel : SelMap → String → Option Bool
  | [], _ => none
  | (k', v') :: rest, k => if k' = k then some v' else getSel rest k

/-! ### Range selection (app.py lines 577-608, `_select_range`)

`start_ts` is `combine(range_from, time.min).timestamp()` and `end_ts` is
`int(combine(range_to, time.max).timestamp())`: with dates modelled as
(non-negative) epoch day numbers, these are `86400 * d` and
`86400 * d + 86399` (the `int()` truncation of the `.999999` fraction).
The page loop mirrors `_select_range`: fetch, per-page title filter
(`title_filter` is the caller's already-lowercased string; falsy skips
the filter), then for each item `at = int(it.get("addedAt", 0) or 0)`,
and if `start_ts <= at <= end_ts` and `str(it.get("ratingKey"))` is
truthy, write the `select` flag and count the item. -/

def dayStartTs (d : Nat) : Int := 86400 * d

def dayEndTs (d : Nat) : Int := 86400 * d + 86399

def addedAtVal (it : CatalogItem) : Int := it.addedAt.getD 0

def appTitleFilter (titleFilter : String) (items : List CatalogItem) :
    List CatalogItem :=
  if titleFilter = "" then items
  else items.filter fun i => strIn titleFilter (lowerStr i.title)

def rangeStep (startTs endTs : Int) (select : Bool)
    (acc : SelMap × Nat) (it : CatalogItem) : SelMap × Nat :=
  let a := addedAtVal it
  if startTs ≤ a ∧ a ≤ endTs then
    let rk := pyStr it.ratingKey
    if rk ≠ "" then (setSel acc.1 rk select, acc.2 + 1) else acc
  else acc

def selectRangeGo (server : List CatalogItem) (pageSize : Nat)
    (titleFilter : String) (startTs endTs : Int) (select : Bool) :
    Nat → Nat → SelMap × Nat → SelMap × Nat
  | 0, _, acc => acc
  | fuel + 1, start, acc =>
    let (batchItems, total) := sliceFetch server pageSize start
    let kept := appTitleFilter titleFilter batchItems
    let acc' := kept.foldl (rangeStep startTs endTs select) acc
    if start + pageSize ≥ total then acc'
    else selectRangeGo server pageSize titleFilter startTs endTs select fuel
      (start + pageSize) acc'

/-- `_select_range(select)`: walks all pages from offset 0 and returns the
final selection map with the touched count.  The fuel
`server.length + 1` suffices for any positive page size. -/
def selectRange (server : List CatalogItem) (pageSize : Nat)
    (titleFilter : String) (fromDay toDay : Nat) (select : Bool)
    (m : SelMap) : SelMap × Nat :=
  selectRangeGo server pageSize titleFilter (dayStartTs fromDay)
    (dayEndTs toDay) select (server.length + 1) 0 (m, 0)

/-! ### "Apply to selected" (app.py lines 508-536)

`keys = [k for k, v in selected.items() if v]`; empty keys short-circuit
with a warning and no remote call; otherwise the same 4-attempt retry
loop runs per key with `per_item_sleep = 60/max_per_min` when
`max_per_min` is truthy and positive.  The selection map is threaded
through the loop unchanged — the loop body issues remote calls and
reports but contains no write to `selected`. -/

def selectedTrueKeys (m : SelMap) : List String :=
  (m.filter fun kv => kv.2).map fun kv => kv.1

def appApplyGo (behavior : String → Nat → Option Err) (sleepQ : ℚ) :
    List String → SelMap → Nat → List (String × Err) →
      SelMap × Nat × List (String × Err)
  | [], m, successes, errs => (m, successes, errs)
  | rk :: rest, m, successes, errs =>
    let t := retryUpdate (behavior rk)
    let successes' := if t.success then successes + 1 else successes
    let errs' :=
      match t.lastErr with
      | some e => errs ++ [(rk, e)]
      | none => errs
    appApplyGo behavior sleepQ rest m successes' errs'

structure AppBatchRun where
  targets : List String
  finalSelected : SelMap
  successes : Nat
  errors : List (String × Err)
deriving Repr, DecidableEq

def appApplyToSelected (behavior : String → Nat → Option Err)
    (selected : SelMap) (maxPerMin : ℚ) : AppBatchRun :=
  let keys := selectedTrueKeys selected
  if keys = [] then ⟨keys, selected, 0, []⟩
  else
    let sleepQ := if 0 < maxPerMin then 60 / maxPerMin else 0
    let r := appApplyGo behavior sleepQ keys selected 0 []
    ⟨keys, r.1, r.2.1, r.2.2⟩

/-! ## Helper lemmas -/

theorem retryUpdate_all_fail (b : Nat → Option Err) (es : Nat → Err)
    (hb : ∀ k, b k = some (es k)) :
    retryUpdate b = ⟨4, [1/2, 1, 2, 4], false, some (es 4)⟩ := by
  simp [retryUpdate, retryGo, hb 1, hb 2, hb 3, hb 4]
  norm_num [min_def]

theorem retryUpdate_cases (b : Nat → Option Err) :
    ((retryUpdate b).success = true ∧ (retryUpdate b).lastErr = none) ∨
    ((retryUpdate b).success = false ∧ (retryUpdate b).calls = 4 ∧
      (retryUpdate b).lastErr = b 4 ∧ (b 4).isSome) := by
  rcases h1 : b 1 with _ | e1 <;> rcases h2 : b 2 with _ | e2 <;>
    rcases h3 : b 3 with _ | e3 <;> rcases h4 : b 4 with _ | e4 <;>
    simp [retryUpdate, retryGo, h1, h2, h3, h4]

theorem loopOutcome_id (cfg : BatchCfg) (rk : String) (t : AttemptTrace)
    (sleepQ : ℚ) :
    (if cfg.dryRun then mkDryOutcome rk sleepQ else mkRealOutcome rk t sleepQ).id
      = rk := by
  cases h : cfg.dryRun
  · simp [mkRealOutcome]
  · simp [mkDryOutcome]

theorem runLoopGo_outcome_mem (b : String → Nat → Option Err) (cfg : BatchCfg)
    (sleepQ : ℚ) (ids : List String) :
    ∀ (u : Nat) (oc : ItemOutcome), oc ∈ (runLoopGo b cfg sleepQ ids u).1 →
      oc = if cfg.dryRun then mkDryOutcome oc.id sleepQ
           else mkRealOutcome oc.id (retryUpdate (b oc.id)) sleepQ := by
  induction ids with
  | nil => intro u oc h; simp [runLoopGo] at h
  | cons rk rest ih =>
    intro u oc h
    simp only [runLoopGo] at h
    split at h
    · simp at h
    · simp only [List.mem_cons] at h
      rcases h with rfl | h
      · cases hd : cfg.dryRun <;> simp [hd, mkDryOutcome, mkRealOutcome]
      · exact ih _ _ h

theorem runLoopGo_updated (b : String → Nat → Option Err) (cfg : BatchCfg)
    (sleepQ : ℚ) (ids : List String) :
    ∀ u : Nat, (runLoopGo b cfg sleepQ ids u).2 =
      u + ((runLoopGo b cfg sleepQ ids u).1.countP fun oc => oc.success) := by
  induction ids with
  | nil => intro u; simp [runLoopGo]
  | cons rk rest ih =>
    intro u
    simp only [runLoopGo]
    split
    · simp
    · cases hs : (if cfg.dryRun then mkDryOutcome rk sleepQ
          else mkRealOutcome rk (retryUpdate (b rk)) sleepQ).success
      · simp [hs, List.countP_cons, ih]
      · simp [hs, List.countP_cons, ih]
        omega

theorem runLoopGo_ids_prefix (b : String → Nat → Option Err) (cfg : BatchCfg)
    (sleepQ : ℚ) (ids : List String) :
    ∀ u : Nat, ∃ n : Nat,
      (runLoopGo b cfg sleepQ ids u).1.map (fun oc => oc.id) = ids.take n := by
  induction ids with
  | nil => intro u; exact ⟨0, by simp [runLoopGo]⟩
  | cons rk rest ih =>
    intro u
    simp only [runLoopGo]
    split
    · exact ⟨0, by simp⟩
    · obtain ⟨n, hn⟩ := ih (if (if cfg.dryRun then mkDryOutcome rk sleepQ
        else mkRealOutcome rk (retryUpdate (b rk)) sleepQ).success then u + 1 else u)
      exact ⟨n + 1, by simp [loopOutcome_id, hn]⟩

theorem runLoopGo_ids_all (b : String → Nat → Option Err) (cfg : BatchCfg)
    (sleepQ : ℚ) (ids : List String) (hnone : cfg.maxItems = none) :
    ∀ u : Nat, (runLoopGo b cfg sleepQ ids u).1.map (fun oc => oc.id) = ids := by
  induction ids with
  | nil => intro u; simp [runLoopGo]
  | cons rk rest ih =>
    intro u
    simp only [runLoopGo]
    split
    · rename_i hcut; rw [hnone] at hcut; simp [cutoffReached] at hcut
    · simp [loopOutcome_id, ih]

theorem runLoopGo_interSleep (b : String → Nat → Option Err) (cfg : BatchCfg)
    (sleepQ : ℚ) (ids : List String) (u : Nat) (oc : ItemOutcome)
    (h : oc ∈ (runLoopGo b cfg sleepQ ids u).1) :
    oc.interSleep = sleepAfter sleepQ := by
  have hm := runLoopGo_outcome_mem b cfg sleepQ ids u oc h
  cases hd : cfg.dryRun
  · rw [hd] at hm
    norm_num at hm
    conv_lhs => rw [hm]
    simp [mkRealOutcome]
  · rw [hd] at hm
    norm_num at hm
    conv_lhs => rw [hm]
    simp [mkDryOutcome]

theorem failures_length_eq (l : List ItemOutcome) :
    (l.filterMap fun oc => oc.err.map fun e => (oc.id, e)).length =
      l.countP fun oc => oc.err.isSome := by
  induction l with
  | nil => simp
  | cons a t ih => cases h : a.err <;> simp [h, List.countP_cons, ih]

theorem countP_success_add_err (l : List ItemOutcome)
    (h : ∀ oc ∈ l, oc.success = !oc.err.isSome) :
    (l.countP fun oc => oc.success) +
      (l.countP fun oc => oc.err.isSome) = l.length := by
  induction l with
  | nil => simp
  | cons a t ih =>
    have ha := h a (by simp)
    have ht := ih fun oc hoc => h oc (by simp [hoc])
    cases hs : a.success
    · have he : a.err.isSome = true := by
        rw [hs] at ha
        cases he : a.err.isSome
        · rw [he] at ha; simp at ha
        · rfl
      simp [List.countP_cons, hs, he]
      omega
    · have he : a.err.isSome = false := by
        rw [hs] at ha
        cases he : a.err.isSome
        · rfl
        · rw [he] at ha; simp at ha
      simp [List.countP_cons, hs, he]
      omega

theorem mem_failures_of_outcome (r : BatchResult) (oc : ItemOutcome) (e : Err)
    (hoc : oc ∈ r.outcomes) (herr : oc.err = some e) :
    (oc.id, e) ∈ r.failures := by
  simp only [BatchResult.failures, List.mem_filterMap]
  exact ⟨oc, hoc, by simp [herr]⟩

theorem runBatch_outcomes (b : String → Nat → Option Err) (cfg : BatchCfg)
    (ids : List String) :
    (runBatch b cfg ids).outcomes = (runLoopGo b cfg (perItemSleep cfg) ids 0).1 :=
  rfl

theorem runBatch_updated (b : String → Nat → Option Err) (cfg : BatchCfg)
    (ids : List String) :
    (runBatch b cfg ids).updated = (runLoopGo b cfg (perItemSleep cfg) ids 0).2 :=
  rfl

/-- The delay actually slept, given the recorded (possibly skipped) sleep
call: `time.sleep` is skipped exactly when the delay is the falsy `0`, so
skipping is sleeping for `0` seconds. -/
def appliedDelay (o : Option ℚ) : ℚ := o.getD 0

theorem appliedDelay_sleepAfter (q : ℚ) : appliedDelay (sleepAfter q) = q := by
  by_cases h : q = 0 <;> simp [appliedDelay, sleepAfter, h]

theorem real_outcome_of_mem (b : String → Nat → Option Err) (cfg : BatchCfg)
    (ids : List String) (oc : ItemOutcome) (hdry : cfg.dryRun = false)
    (hoc : oc ∈ (runBatch b cfg ids).outcomes) :
    oc = mkRealOutcome oc.id (retryUpdate (b oc.id)) (perItemSleep cfg) := by
  have hm := runLoopGo_outcome_mem b cfg (perItemSleep cfg) ids 0 oc
    (by rw [← runBatch_outcomes]; exact hoc)
  rw [hdry] at hm
  norm_num at hm
  exact hm

theorem dry_outcome_of_mem (b : String → Nat → Option Err) (cfg : BatchCfg)
    (ids : List String) (oc : ItemOutcome) (hdry : cfg.dryRun = true)
    (hoc : oc ∈ (runBatch b cfg ids).outcomes) :
    oc = mkDryOutcome oc.id (perItemSleep cfg) := by
  have hm := runLoopGo_outcome_mem b cfg (perItemSleep cfg) ids 0 oc
    (by rw [← runBatch_outcomes]; exact hoc)
  rw [hdry] at hm
  norm_num at hm
  exact hm

/-! ## Claim theorems -/

/-- C1: for every target whose remote update call raises on every attempt,
the batch update engine (`cli.py` lines 134-151) makes exactly 4 update
attempts for that target — never a 5th — sleeping
`min(8, 0.5 * 2 ^ (k - 1))` seconds after the k-th failed attempt, i.e.
0.5, 1, 2 and 4 seconds, and then records the target as failed with the
last (4th) error. -/
theorem retry_exhaustion_spec (cfg : BatchCfg) (b : String → Nat → Option Err)
    (ids : List String) (rk : String) (es : Nat → Err)
    (hdry : cfg.dryRun = false) (hb : ∀ k, b rk k = some (es k))
    (oc : ItemOutcome) (hoc : oc ∈ (runBatch b cfg ids).outcomes)
    (hid : oc.id = rk) :
    oc.calls = 4 ∧ oc.backoff = [1/2, 1, 2, 4] ∧ oc.success = false ∧
      oc.err = some (es 4) ∧ (rk, es 4) ∈ (runBatch b cfg ids).failures := by
  have hm := real_outcome_of_mem b cfg ids oc hdry hoc
  rw [hid, retryUpdate_all_fail (b rk) es hb] at hm
  have h1 : oc.calls = 4 := by rw [hm]; rfl
  have h2 : oc.backoff = [1/2, 1, 2, 4] := by rw [hm]; rfl
  have h3 : oc.success = false := by rw [hm]; rfl
  have h4 : oc.err = some (es 4) := by rw [hm]; rfl
  refine ⟨h1, h2, h3, h4, ?_⟩
  have := mem_failures_of_outcome (runBatch b cfg ids) oc (es 4) hoc h4
  rwa [hid] at this

/-- C2: the engine sleeps `max(fixed_delay, 60 / max_per_minute)` seconds
after every processed item when `max_per_minute > 0`; with
`max_per_minute = 0` (or unset) it sleeps only the configured fixed
delay; and with `max_per_minute = 30` and zero fixed delay every
inter-item delay is at least 2 seconds, whatever the item's outcome. -/
theorem inter_item_delay_spec (cfg : BatchCfg) (b : String → Nat → Option Err)
    (ids : List String) :
    (∀ m : ℚ, cfg.maxPerMinute = some m → 0 < m →
      ∀ oc ∈ (runBatch b cfg ids).outcomes,
        appliedDelay oc.interSleep = max cfg.fixedSleep (60 / m)) ∧
    ((cfg.maxPerMinute = some 0 ∨ cfg.maxPerMinute = none) →
      0 ≤ cfg.fixedSleep →
      ∀ oc ∈ (runBatch b cfg ids).outcomes,
        appliedDelay oc.interSleep = cfg.fixedSleep) ∧
    (cfg.maxPerMinute = some 30 → cfg.fixedSleep = 0 →
      ∀ oc ∈ (runBatch b cfg ids).outcomes,
        2 ≤ appliedDelay oc.interSleep) := by
  have hkey : ∀ oc ∈ (runBatch b cfg ids).outcomes,
      appliedDelay oc.interSleep = perItemSleep cfg := by
    intro oc hoc
    rw [runLoopGo_interSleep b cfg (perItemSleep cfg) ids 0 oc
      (by rw [← runBatch_outcomes]; exact hoc)]
    exact appliedDelay_sleepAfter _
  refine ⟨?_, ?_, ?_⟩
  · intro m hmpm hm oc hoc
    rw [hkey oc hoc]
    have hr : rateSleep cfg = 60 / m := by
      rw [rateSleep, hmpm]
      simp only [hm, if_true]
      exact max_eq_right (by positivity)
    rw [perItemSleep, hr]
  · intro hmpm hfix oc hoc
    rw [hkey oc hoc]
    have hr : rateSleep cfg = 0 := by
      rcases hmpm with h | h
      · rw [rateSleep, h]; norm_num
      · rw [rateSleep, h]
    rw [perItemSleep, hr]
    exact max_eq_left hfix
  · intro hmpm hfix oc hoc
    rw [hkey oc hoc]
    have hr : rateSleep cfg = 2 := by
      rw [rateSleep, hmpm]
      norm_num
    rw [perItemSleep, hr, hfix]
    norm_num

/-- C6: with dry-run off, a per-item retry exhaustion never aborts the
batch: the engine processes a prefix of the target list (the whole list
when `max_items` is unset), every processed item is either a success or
an exhausted failure whose recorded error is the 4th attempt's error,
succeeded plus failed counts cover every processed item, and every
reported failure names a processed identifier with its last error.  The
engine is a total function — no per-item remote failure raises. -/
theorem batch_never_aborts_spec (cfg : BatchCfg) (b : String → Nat → Option Err)
    (ids : List String) (hdry : cfg.dryRun = false) :
    (∃ n, (runBatch b cfg ids).outcomes.map (fun oc => oc.id) = ids.take n) ∧
    (cfg.maxItems = none →
      (runBatch b cfg ids).outcomes.map (fun oc => oc.id) = ids) ∧
    (runBatch b cfg ids).updated + (runBatch b cfg ids).failures.length =
      (runBatch b cfg ids).outcomes.length ∧
    (∀ oc ∈ (runBatch b cfg ids).outcomes,
      (oc.success = true ∧ oc.err = none) ∨
      (oc.success = false ∧ oc.calls = 4 ∧ oc.err = b oc.id 4 ∧
        (b oc.id 4).isSome)) ∧
    (∀ p ∈ (runBatch b cfg ids).failures,
      ∃ oc ∈ (runBatch b cfg ids).outcomes, oc.id = p.1 ∧ oc.err = some p.2) := by
  have hdich : ∀ oc ∈ (runBatch b cfg ids).outcomes,
      (oc.success = true ∧ oc.err = none) ∨
      (oc.success = false ∧ oc.calls = 4 ∧ oc.err = b oc.id 4 ∧
        (b oc.id 4).isSome) := by
    intro oc hoc
    have hm := real_outcome_of_mem b cfg ids oc hdry hoc
    have hsucc : oc.success = (retryUpdate (b oc.id)).success := by
      conv_lhs => rw [hm]
      rfl
    have herr : oc.err = (retryUpdate (b oc.id)).lastErr := by
      conv_lhs => rw [hm]
      rfl
    have hcalls : oc.calls = (retryUpdate (b oc.id)).calls := by
      conv_lhs => rw [hm]
      rfl
    rcases retryUpdate_cases (b oc.id) with ⟨h1, h2⟩ | ⟨h1, h2, h3, h4⟩
    · left; rw [hsucc, herr]; exact ⟨h1, h2⟩
    · right; rw [hsucc, herr, hcalls]; exact ⟨h1, h2, h3, h4⟩
  refine ⟨?_, ?_, ?_, hdich, ?_⟩
  · rw [runBatch_outcomes]
    exact runLoopGo_ids_prefix b cfg (perItemSleep cfg) ids 0
  · intro hnone
    rw [runBatch_outcomes]
    exact runLoopGo_ids_all b cfg (perItemSleep cfg) ids hnone 0
  · have hupd : (runBatch b cfg ids).updated =
        (runBatch b cfg ids).outcomes.countP fun oc => oc.success := by
      rw [runBatch_updated, runBatch_outcomes,
        runLoopGo_updated b cfg (perItemSleep cfg) ids 0]
      simp
    have hfail : (runBatch b cfg ids).failures.length =
        (runBatch b cfg ids).outcomes.countP fun oc => oc.err.isSome :=
      failures_length_eq _
    rw [hupd, hfail]
    apply countP_success_add_err
    intro oc hoc
    rcases hdich oc hoc with ⟨h1, h2⟩ | ⟨h1, h2, h3, h4⟩
    · rw [h1, h2]
      rfl
    · rw [h1, h3]
      rcases Option.isSome_iff_exists.mp h4 with ⟨e, he⟩
      rw [he]
      rfl
  · intro p hp
    simp only [BatchResult.failures, List.mem_filterMap] at hp
    obtain ⟨oc, hoc, hmap⟩ := hp
    refine ⟨oc, hoc, ?_⟩
    cases he : oc.err with
    | none => rw [he] at hmap; simp at hmap
    | some e =>
      rw [he] at hmap
      simp only [Option.map_some', Option.some.injEq] at hmap
      subst hmap
      exact ⟨rfl, rfl⟩

/-- C8: under `--dry-run` the loop prints one planned-update line per
matched id (when no max-items interplay is in force: `maxItems = none`)
and issues zero remote update calls; no failure is ever reported. -/
theorem cli_dry_run_spec (cfg : BatchCfg) (b : String → Nat → Option Err)
    (ids : List String) (hdry : cfg.dryRun = true) :
    (∀ oc ∈ (runBatch b cfg ids).outcomes, oc.planned = true ∧ oc.calls = 0) ∧
    ((runBatch b cfg ids).outcomes.map (fun oc => oc.calls)).sum = 0 ∧
    (runBatch b cfg ids).failures = [] ∧
    (cfg.maxItems = none →
      (runBatch b cfg ids).outcomes.map (fun oc => oc.id) = ids) := by
  have hocs : ∀ oc ∈ (runBatch b cfg ids).outcomes,
      oc.planned = true ∧ oc.calls = 0 ∧ oc.err = none := by
    intro oc hoc
    have hm := dry_outcome_of_mem b cfg ids oc hdry hoc
    refine ⟨?_, ?_, ?_⟩ <;> rw [hm] <;> rfl
  refine ⟨fun oc hoc => ⟨(hocs oc hoc).1, (hocs oc hoc).2.1⟩, ?_, ?_, ?_⟩
  · apply List.sum_eq_zero
    intro x hx
    simp only [List.mem_map] at hx
    obtain ⟨oc, hoc, rfl⟩ := hx
    exact (hocs oc hoc).2.1
  · simp only [BatchResult.failures]
    rw [List.filterMap_eq_nil_iff]
    intro oc hoc
    rw [(hocs oc hoc).2.2]
    rfl
  · intro hnone
    rw [runBatch_outcomes]
    exact runLoopGo_ids_all b cfg (perItemSleep cfg) ids hnone 0

theorem runLoopGo_cutoff_inv (b : String → Nat → Option Err) (cfg : BatchCfg)
    (sleepQ : ℚ) (m : Int) (hmi : cfg.maxItems = some m) (hm : 0 < m)
    (ids : List String) :
    ∀ u : Nat, (u : Int) ≤ m →
      (runLoopGo b cfg sleepQ ids u).1.map (fun oc => oc.id)
          = ids.take (runLoopGo b cfg sleepQ ids u).1.length ∧
        ((runLoopGo b cfg sleepQ ids u).2 : Int) ≤ m ∧
        ((runLoopGo b cfg sleepQ ids u).1.length < ids.length →
          ((runLoopGo b cfg sleepQ ids u).2 : Int) = m) ∧
        ∀ k < (runLoopGo b cfg sleepQ ids u).1.length,
          (u : Int) +
              (((runLoopGo b cfg sleepQ ids u).1.take k).countP
                fun oc => oc.success) < m := by
  induction ids with
  | nil =>
    intro u hu
    refine ⟨by simp [runLoopGo], by simpa [runLoopGo] using hu, ?_, ?_⟩
    · intro h; simp [runLoopGo] at h
    · intro k hk; simp [runLoopGo] at hk
  | cons rk rest ih =>
    intro u hu
    by_cases hcut : cutoffReached cfg.maxItems u
    · have hum : (u : Int) = m := by
        rw [hmi] at hcut
        simp [cutoffReached] at hcut
        omega
      refine ⟨by simp [runLoopGo, hcut], by simpa [runLoopGo, hcut] using hu,
        ?_, ?_⟩
      · intro _
        simpa [runLoopGo, hcut] using hum
      · intro k hk
        simp [runLoopGo, hcut] at hk
    · have hulem : (u : Int) < m := by
        rw [hmi] at hcut
        simp [cutoffReached] at hcut
        omega
      obtain ⟨oc, hoc⟩ : ∃ oc, (if cfg.dryRun then mkDryOutcome rk sleepQ
          else mkRealOutcome rk (retryUpdate (b rk)) sleepQ) = oc := ⟨_, rfl⟩
      obtain ⟨u', hu'⟩ : ∃ u',
          (if oc.success then u + 1 else u) = u' := ⟨_, rfl⟩
      have hrun : runLoopGo b cfg sleepQ (rk :: rest) u =
          (oc :: (runLoopGo b cfg sleepQ rest u').1,
            (runLoopGo b cfg sleepQ rest u').2) := by
        simp only [runLoopGo, hcut, Bool.false_eq_true, if_false, hoc, hu']
      have hcnt : (u' : Int) = (u : Int) +
          (if oc.success = true then (1 : Int) else 0) := by
        by_cases hs : oc.success = true
        · rw [← hu']
          simp [hs]
        · rw [← hu']
          simp [hs]
      have hu'le : (u' : Int) ≤ m := by
        by_cases hs : oc.success = true
        · simp only [hs, if_true] at hcnt
          omega
        · simp only [hs, if_false] at hcnt
          omega
      obtain ⟨ih1, ih2, ih3, ih4⟩ := ih u' hu'le
      rw [hrun]
      have hid : oc.id = rk := by rw [← hoc]; exact loopOutcome_id cfg rk _ sleepQ
      refine ⟨?_, ih2, ?_, ?_⟩
      · simp only [List.map_cons, List.length_cons, List.take_succ_cons, hid]
        rw [ih1]
      · intro hlen
        simp only [List.length_cons] at hlen
        exact ih3 (by omega)
      · intro k hk
        simp only [List.length_cons] at hk
        match k with
        | 0 =>
          simpa using hulem
        | j + 1 =>
          have hj := ih4 j (by omega)
          simp only [List.take_succ_cons, List.countP_cons]
          by_cases hs : oc.success = true
          · simp only [hs, if_true] at hcnt ⊢
            push_cast at hj hcnt ⊢
            omega
          · simp only [hs, if_false] at hcnt ⊢
            push_cast at hj hcnt ⊢
            omega

/-- C3 counterexample: the claim quantifies over "max_items is set", but
`--max-items 0` is falsy in `if args.max_items and updated >= args.max_items`
(cli.py line 129), so the cut-off is ignored even though the running
success count (0) has already reached `max_items`: with two targets and an
always-succeeding remote, both targets are updated and both appear in the
report, where the claim as stated demands that no update be issued. -/
theorem max_items_zero_counterexample :
    (runBatch (fun _ _ => none) ⟨some 0, 0, none, false⟩ ["1", "2"]).updated = 2 ∧
      (runBatch (fun _ _ => none) ⟨some 0, 0, none, false⟩
        ["1", "2"]).outcomes.map (fun oc => oc.id) = ["1", "2"] := by
  constructor
  · decide
  · decide

/-- C3 (amended to positive `max_items`): with `max_items` set to a
positive value and dry-run off, the engine processes exactly a prefix of
the targets, stopping as soon as the running success count reaches
`max_items`: the success count never exceeds it, a truncated run means the
count reached it, before every processed item the running count was still
below it, and the remaining targets appear nowhere in the report. -/
theorem max_items_positive_cutoff_spec (cfg : BatchCfg)
    (b : String → Nat → Option Err) (ids : List String) (m : Int)
    (hmi : cfg.maxItems = some m) (hm : 0 < m) :
    (runBatch b cfg ids).outcomes.map (fun oc => oc.id)
        = ids.take (runBatch b cfg ids).outcomes.length ∧
      ((runBatch b cfg ids).updated : Int) ≤ m ∧
      ((runBatch b cfg ids).outcomes.length < ids.length →
        ((runBatch b cfg ids).updated : Int) = m) ∧
      ∀ k < (runBatch b cfg ids).outcomes.length,
        ((((runBatch b cfg ids).outcomes.take k).countP
          fun oc => oc.success) : Int) < m := by
  have h := runLoopGo_cutoff_inv b cfg (perItemSleep cfg) m hmi hm ids 0
    (by exact_mod_cast hm.le)
  rw [runBatch_outcomes, runBatch_updated]
  refine ⟨h.1, h.2.1, h.2.2.1, ?_⟩
  intro k hk
  have := h.2.2.2 k hk
  omega

theorem runLoopGo_dry_nonneg (b : String → Nat → Option Err) (cfg : BatchCfg)
    (sleepQ : ℚ) (m : Int) (hdry : cfg.dryRun = true)
    (hmi : cfg.maxItems = some m) (hm : 0 ≤ m) (ids : List String) :
    (runLoopGo b cfg sleepQ ids 0).1.map (fun oc => oc.id) = ids ∧
      (runLoopGo b cfg sleepQ ids 0).2 = 0 := by
  induction ids with
  | nil => exact ⟨by simp [runLoopGo], by simp [runLoopGo]⟩
  | cons rk rest ih =>
    have hcut : cutoffReached cfg.maxItems 0 = false := by
      rw [hmi]
      simp [cutoffReached]
      omega
    have hsucc : (if cfg.dryRun then mkDryOutcome rk sleepQ
        else mkRealOutcome rk (retryUpdate (b rk)) sleepQ).success = false := by
      rw [hdry]
      rfl
    constructor
    · simp only [runLoopGo, hcut, Bool.false_eq_true, if_false, hsucc,
        List.map_cons]
      rw [loopOutcome_id]
      rw [ih.1]
    · simp only [runLoopGo, hcut, Bool.false_eq_true, if_false, hsucc]
      exact ih.2

/-- C9 counterexample: `--max-items` compares against the success counter
with `updated >= args.max_items`; a negative `--max-items -1` is truthy
and `0 >= -1` holds at once, so even under `--dry-run` the loop breaks
before printing anything: with two matched ids, zero planned-update lines
are printed, where the claim as stated demands one line per matched id. -/
theorem dry_run_max_items_negative_counterexample :
    (runBatch (fun _ _ => none) ⟨some (-1), 0, none, true⟩ ["1", "2"]).outcomes
      = [] := by
  decide

/-- C9 (amended to non-negative `max_items`): under `--dry-run` the
success counter only increments on an actual successful remote update, so
it stays 0; for `max_items` set to any non-negative value the cut-off
`updated >= max_items` therefore never fires (0 is falsy, positive values
are never reached), and a planned-update line is printed for every
matched id with zero remote update calls. -/
theorem dry_run_max_items_nonneg_spec (cfg : BatchCfg)
    (b : String → Nat → Option Err) (ids : List String) (m : Int)
    (hdry : cfg.dryRun = true) (hmi : cfg.maxItems = some m) (hm : 0 ≤ m) :
    (runBatch b cfg ids).outcomes.map (fun oc => oc.id) = ids ∧
      (runBatch b cfg ids).updated = 0 ∧
      (∀ oc ∈ (runBatch b cfg ids).outcomes,
        oc.planned = true ∧ oc.calls = 0) ∧
      ((runBatch b cfg ids).outcomes.map (fun oc => oc.calls)).sum = 0 := by
  have h := runLoopGo_dry_nonneg b cfg (perItemSleep cfg) m hdry hmi hm ids
  have hocs : ∀ oc ∈ (runBatch b cfg ids).outcomes,
      oc.planned = true ∧ oc.calls = 0 := by
    intro oc hoc
    have hmem := dry_outcome_of_mem b cfg ids oc hdry hoc
    exact ⟨by rw [hmem]; rfl, by rw [hmem]; rfl⟩
  refine ⟨?_, ?_, hocs, ?_⟩
  · rw [runBatch_outcomes]; exact h.1
  · rw [runBatch_updated]; exact h.2
  · apply List.sum_eq_zero
    intro x hx
    simp only [List.mem_map] at hx
    obtain ⟨oc, hoc, rfl⟩ := hx
    exact (hocs oc hoc).2

theorem isEmpty_false_of_ne_nil {α : Type} {l : List α} (h : l ≠ []) :
    l.isEmpty = false := by
  cases l with
  | nil => exact absurd rfl h
  | cons a t => rfl

theorem iterIdsGo_calls_offsets (fetch : Nat → List CatalogItem × Nat)
    (pageSize : Nat) (tc : Option String) :
    ∀ fuel page, ∃ k,
      (iterIdsGo fetch pageSize tc fuel page).calls =
        (List.range' page k 1).map (fun p => p * pageSize) := by
  intro fuel
  induction fuel with
  | zero => exact fun page => ⟨0, by simp [iterIdsGo]⟩
  | succ f ih =>
    intro page
    rcases hf : fetch (page * pageSize) with ⟨items, total⟩
    by_cases he : items.isEmpty
    · exact ⟨1, by simp [iterIdsGo, hf, he]⟩
    · by_cases hstop : page * pageSize + pageSize ≥ total
      · exact ⟨1, by simp [iterIdsGo, hf, he, hstop]⟩
      · obtain ⟨k, hk⟩ := ih (page + 1)
        refine ⟨k + 1, ?_⟩
        simp only [iterIdsGo, hf, he, hstop, List.range'_succ, List.map_cons]
        simp [hk]

/-- C4: the result enumerator walks pages at offsets 0, page_size,
2·page_size, ... ; against a consistent remote holding 250 items with
page size 100 it issues exactly the 3 fetch calls with start 0, 100, 200
and no 4th call — the final page's `start + page_size >= total` check
terminates the loop. -/
theorem enumerator_pagination_spec (server : List CatalogItem)
    (hlen : server.length = 250) (fuel : Nat) (hfuel : 3 ≤ fuel) :
    (iterIdsFromFetch (sliceFetch server 100) 100 none fuel).calls
        = [0, 100, 200] ∧
      (iterIdsFromFetch (sliceFetch server 100) 100 none fuel).calls.length
        = 3 ∧
      ∀ (fetch : Nat → List CatalogItem × Nat) (ps : Nat)
        (tc : Option String) (fl : Nat), ∃ k,
          (iterIdsFromFetch fetch ps tc fl).calls
            = (List.range' 0 k 1).map (fun p => p * ps) := by
  have hne : ∀ s : Nat, s < 250 → ((server.drop s).take 100).isEmpty = false := by
    intro s hs
    apply isEmpty_false_of_ne_nil
    intro hnil
    have hl := congrArg List.length hnil
    simp [List.length_take, List.length_drop, hlen] at hl
    omega
  have hsnil : server ≠ [] := by
    intro h
    rw [h] at hlen
    simp at hlen
  have hcalls : (iterIdsFromFetch (sliceFetch server 100) 100 none fuel).calls
      = [0, 100, 200] := by
    obtain ⟨f, rfl⟩ : ∃ f, fuel = f + 3 := ⟨fuel - 3, by omega⟩
    simp only [iterIdsFromFetch, iterIdsGo, sliceFetch]
    norm_num [hlen, hsnil, hne 0 (by norm_num), hne 100 (by norm_num),
      hne 200 (by norm_num)]
  refine ⟨hcalls, by rw [hcalls]; rfl, ?_⟩
  intro fetch ps tc fl
  exact iterIdsGo_calls_offsets fetch ps tc fl 0

/-- C7: with an empty resolved target list the CLI run is a no-op, not an
error — exit code 0, a zero-item report, and no update call; missing
credentials exit with code 2 before any remote call (no fetch offsets
recorded, no batch). -/
theorem cli_empty_and_creds_spec (args : CliArgs)
    (fetch : Nat → List CatalogItem × Nat)
    (b : String → Nat → Option Err) (fuel : Nat) :
    ((args.baseUrl = "" ∨ args.token = "") →
      cliMain args fetch b fuel = ⟨2, [], [], none⟩) ∧
    (args.baseUrl ≠ "" → args.token ≠ "" →
      (resolveIds args.explicitIds fetch args.pageSize args.titleContains
        fuel).ids = [] →
      (cliMain args fetch b fuel).exitCode = 0 ∧
        (cliMain args fetch b fuel).matched = [] ∧
        (cliMain args fetch b fuel).batch = none ∧
        (cliMain args fetch b fuel).updateCalls = 0) := by
  constructor
  · intro h
    simp only [cliMain, if_pos h]
  · intro h1 h2 hids
    have hcond : ¬(args.baseUrl = "" ∨ args.token = "") := by
      rintro (h | h)
      · exact h1 h
      · exact h2 h
    simp only [cliMain, if_neg hcond, hids, if_pos rfl]
    exact ⟨rfl, rfl, rfl, rfl⟩

theorem appApplyGo_selMap (b : String → Nat → Option Err) (sleepQ : ℚ) :
    ∀ (keys : List String) (m : SelMap) (s : Nat)
      (es : List (String × Err)),
      (appApplyGo b sleepQ keys m s es).1 = m := by
  intro keys
  induction keys with
  | nil => intro m s es; rfl
  | cons rk rest ih =>
    intro m s es
    simp only [appApplyGo]
    exact ih m _ _

/-- C10: the "Apply to selected" batch only reads the selection mapping —
its target list is exactly the ids currently mapped to true — and never
writes to it: for every mapping and every per-item remote outcome
pattern, the mapping after the run is identical to the mapping before. -/
theorem apply_selected_frame_spec (b : String → Nat → Option Err)
    (selected : SelMap) (maxPerMin : ℚ) :
    (appApplyToSelected b selected maxPerMin).finalSelected = selected ∧
      (appApplyToSelected b selected maxPerMin).targets
        = selectedTrueKeys selected := by
  by_cases h : selectedTrueKeys selected = []
  · simp [appApplyToSelected, h]
  · simp [appApplyToSelected, h, appApplyGo_selMap]

theorem getSel_setSel_self (m : SelMap) (k : String) (v : Bool) :
    getSel (setSel m k v) k = some v := by
  induction m with
  | nil => simp [setSel, getSel]
  | cons kv rest ih =>
    by_cases h : kv.1 = k
    · simp [setSel, getSel, h]
    · simp [setSel, getSel, h, ih]

theorem getSel_setSel_ne (m : SelMap) (k : String) (v : Bool) (k' : String)
    (h : k ≠ k') : getSel (setSel m k v) k' = getSel m k' := by
  induction m with
  | nil => simp [setSel, getSel, h]
  | cons kv rest ih =>
    by_cases hk : kv.1 = k
    · simp only [setSel, if_pos hk, getSel]
      rw [hk]
      simp [h]
    · simp only [setSel, if_neg hk, getSel]
      by_cases hk' : kv.1 = k'
      · simp [hk']
      · simp [hk', ih]

theorem appTitleFilter_nil (tf : String) : appTitleFilter tf [] = [] := by
  by_cases h : tf = "" <;> simp [appTitleFilter, h]

theorem appTitleFilter_append (tf : String) (l1 l2 : List CatalogItem) :
    appTitleFilter tf (l1 ++ l2)
      = appTitleFilter tf l1 ++ appTitleFilter tf l2 := by
  by_cases h : tf = "" <;> simp [appTitleFilter, h]

theorem appTitleFilter_subset (tf : String) (l : List CatalogItem)
    (it : CatalogItem) (h : it ∈ appTitleFilter tf l) : it ∈ l := by
  by_cases htf : tf = ""
  · simpa [appTitleFilter, htf] using h
  · simp only [appTitleFilter, if_neg htf] at h
    exact List.mem_of_mem_filter h

theorem selectRangeGo_eq_fold (server : List CatalogItem) (ps : Nat)
    (tf : String) (s e : Int) (sel : Bool) (hps : 0 < ps) :
    ∀ (fuel start : Nat) (acc : SelMap × Nat),
      server.length ≤ start + fuel * ps →
      selectRangeGo server ps tf s e sel fuel start acc =
        (appTitleFilter tf (server.drop start)).foldl
          (rangeStep s e sel) acc := by
  intro fuel
  induction fuel with
  | zero =>
    intro start acc hle
    simp only [Nat.zero_mul, Nat.add_zero] at hle
    rw [List.drop_eq_nil_of_le hle, appTitleFilter_nil]
    rfl
  | succ f ih =>
    intro start acc hle
    by_cases hstop : start + ps ≥ server.length
    · have htake : (server.drop start).take ps = server.drop start := by
        apply List.take_of_length_le
        rw [List.length_drop]
        omega
      simp only [selectRangeGo, sliceFetch, if_pos hstop, htake]
    · have hrec : server.length ≤ (start + ps) + f * ps := by
        rw [Nat.succ_mul] at hle
        omega
      have hsplit : server.drop start
          = (server.drop start).take ps ++ server.drop (start + ps) := by
        conv_lhs => rw [← List.take_append_drop ps (server.drop start)]
        rw [List.drop_drop, Nat.add_comm]
      simp only [selectRangeGo, sliceFetch, if_neg hstop]
      rw [ih (start + ps) _ hrec]
      conv_rhs => rw [hsplit]
      rw [appTitleFilter_append, List.foldl_append]

theorem rangeFold_count (s e : Int) (sel : Bool) :
    ∀ (l : List CatalogItem) (m : SelMap) (t : Nat),
      (l.foldl (rangeStep s e sel) (m, t)).2 =
        t + l.countP fun it =>
          decide (s ≤ addedAtVal it ∧ addedAtVal it ≤ e)
            && decide (pyStr it.ratingKey ≠ "") := by
  intro l
  induction l with
  | nil => intro m t; simp
  | cons a l ih =>
    intro m t
    by_cases hin : s ≤ addedAtVal a ∧ addedAtVal a ≤ e
    · by_cases hrk : pyStr a.ratingKey ≠ ""
      · simp only [List.foldl_cons, rangeStep, if_pos hin, if_pos hrk,
          List.countP_cons]
        rw [ih]
        simp [hin, hrk]
        omega
      · simp only [List.foldl_cons, rangeStep, if_pos hin, if_neg hrk,
          List.countP_cons]
        rw [ih]
        simp [hin, hrk]
    · simp only [List.foldl_cons, rangeStep, if_neg hin, List.countP_cons]
      rw [ih]
      simp [hin]

theorem rangeFold_untouched (s e : Int) (sel : Bool) :
    ∀ (l : List CatalogItem) (m : SelMap) (t : Nat) (k : String),
      (∀ it ∈ l, s ≤ addedAtVal it ∧ addedAtVal it ≤ e →
        pyStr it.ratingKey ≠ k) →
      getSel (l.foldl (rangeStep s e sel) (m, t)).1 k = getSel m k := by
  intro l
  induction l with
  | nil => intro m t k _; rfl
  | cons a l ih =>
    intro m t k hk
    have htail : ∀ it ∈ l, s ≤ addedAtVal it ∧ addedAtVal it ≤ e →
        pyStr it.ratingKey ≠ k :=
      fun it hit => hk it (List.mem_cons_of_mem a hit)
    by_cases hin : s ≤ addedAtVal a ∧ addedAtVal a ≤ e
    · by_cases hrk : pyStr a.ratingKey ≠ ""
      · simp only [List.foldl_cons, rangeStep, if_pos hin, if_pos hrk]
        rw [ih _ _ _ htail]
        exact getSel_setSel_ne m _ sel k (hk a (by simp) hin)
      · simp only [List.foldl_cons, rangeStep, if_pos hin, if_neg hrk]
        exact ih _ _ _ htail
    · simp only [List.foldl_cons, rangeStep, if_neg hin]
      exact ih _ _ _ htail

theorem rangeFold_sel_persist (s e : Int) (sel : Bool) :
    ∀ (l : List CatalogItem) (m : SelMap) (t : Nat) (k : String),
      getSel m k = some sel →
      getSel (l.foldl (rangeStep s e sel) (m, t)).1 k = some sel := by
  intro l
  induction l with
  | nil => intro m t k h; exact h
  | cons a l ih =>
    intro m t k h
    by_cases hin : s ≤ addedAtVal a ∧ addedAtVal a ≤ e
    · by_cases hrk : pyStr a.ratingKey ≠ ""
      · simp only [List.foldl_cons, rangeStep, if_pos hin, if_pos hrk]
        apply ih
        by_cases hkk : pyStr a.ratingKey = k
        · rw [hkk, getSel_setSel_self]
        · rw [getSel_setSel_ne m _ sel k hkk]
          exact h
      · simp only [List.foldl_cons, rangeStep, if_pos hin, if_neg hrk]
        exact ih _ _ _ h
    · simp only [List.foldl_cons, rangeStep, if_neg hin]
      exact ih _ _ _ h

theorem rangeFold_mem_set (s e : Int) (sel : Bool) :
    ∀ (l : List CatalogItem) (m : SelMap) (t : Nat) (it : CatalogItem),
      it ∈ l → s ≤ addedAtVal it ∧ addedAtVal it ≤ e →
      pyStr it.ratingKey ≠ "" →
      getSel (l.foldl (rangeStep s e sel) (m, t)).1 (pyStr it.ratingKey)
        = some sel := by
  intro l
  induction l with
  | nil => intro m t it hit; simp at hit
  | cons a l ih =>
    intro m t it hit hin hrk
    rcases List.mem_cons.mp hit with rfl | hmem
    · simp only [List.foldl_cons, rangeStep, if_pos hin, if_pos hrk]
      apply rangeFold_sel_persist
      exact getSel_setSel_self m _ sel
    · simp only [List.foldl_cons]
      rcases (rangeStep s e sel (m, t) a) with ⟨m', t'⟩
      exact ih m' t' it hmem hin hrk

/-- C5: `_select_range` touches exactly the enumerated (title-filtered)
items whose added-date lies in the inclusive range from the start of day
of `from_date` (00:00:00) to the end of day of `to_date` (23:59:59 after
`int()` truncation), setting each such item's selection to the given flag
and counting it; other keys keep their previous selection; a missing
added-date is treated as timestamp 0 and falls in the range only when the
range includes epoch zero.  (Rating keys are assumed to render to
non-empty strings, as every real catalog identifier does.) -/
theorem select_range_spec (server : List CatalogItem) (ps : Nat)
    (tf : String) (fromD toD : Nat) (sel : Bool) (m0 : SelMap)
    (hps : 0 < ps)
    (hrk : ∀ it ∈ server, pyStr it.ratingKey ≠ "") :
    (selectRange server ps tf fromD toD sel m0).2 =
        (appTitleFilter tf server).countP
          (fun it => decide (dayStartTs fromD ≤ addedAtVal it ∧
            addedAtVal it ≤ dayEndTs toD)) ∧
      (∀ it ∈ appTitleFilter tf server,
        dayStartTs fromD ≤ addedAtVal it ∧ addedAtVal it ≤ dayEndTs toD →
        getSel (selectRange server ps tf fromD toD sel m0).1
          (pyStr it.ratingKey) = some sel) ∧
      (∀ k : String,
        (∀ it ∈ appTitleFilter tf server,
          dayStartTs fromD ≤ addedAtVal it ∧ addedAtVal it ≤ dayEndTs toD →
          pyStr it.ratingKey ≠ k) →
        getSel (selectRange server ps tf fromD toD sel m0).1 k
          = getSel m0 k) ∧
      (∀ it : CatalogItem, it.addedAt = none →
        ((dayStartTs fromD ≤ addedAtVal it ∧ addedAtVal it ≤ dayEndTs toD)
          ↔ (dayStartTs fromD ≤ 0 ∧ 0 ≤ dayEndTs toD))) := by
  have hfold : selectRange server ps tf fromD toD sel m0 =
      (appTitleFilter tf server).foldl
        (rangeStep (dayStartTs fromD) (dayEndTs toD) sel) (m0, 0) := by
    rw [selectRange]
    rw [selectRangeGo_eq_fold server ps tf _ _ sel hps (server.length + 1) 0
      (m0, 0) ?_]
    · rw [List.drop_zero]
    · have : server.length + 1 ≤ (server.length + 1) * ps :=
        Nat.le_mul_of_pos_right _ hps
      omega
  rw [hfold]
  refine ⟨?_, ?_, ?_, ?_⟩
  · rw [rangeFold_count]
    simp only [Nat.zero_add]
    apply List.countP_congr
    intro it hit
    have h1 := hrk it (appTitleFilter_subset tf server it hit)
    simp [h1]
  · intro it hit hin
    exact rangeFold_mem_set _ _ sel _ m0 0 it hit hin
      (hrk it (appTitleFilter_subset tf server it hit))
  · intro k hk
    exact rangeFold_untouched _ _ sel _ m0 0 k hk
  · intro it hadd
    rw [addedAtVal, hadd]
    rfl

/-! ## Witnesses: the theorems above applied at concrete inputs -/

theorem headI_mem_self {α : Type} [Inhabited α] {l : List α} (h : l ≠ []) :
    l.headI ∈ l := by
  cases l with
  | nil => exact absurd rfl h
  | cons a t => simp [List.headI]

/-- Witness for C1 at an always-raising remote and a single target. -/
theorem retry_exhaustion_witness :
    ((runBatch (fun _ _ => some "boom") ⟨none, 0, none, false⟩
        ["7"]).outcomes.headI).calls = 4 ∧
      ((runBatch (fun _ _ => some "boom") ⟨none, 0, none, false⟩
        ["7"]).outcomes.headI).backoff = [1/2, 1, 2, 4] ∧
      ("7", "boom") ∈ (runBatch (fun _ _ => some "boom")
        ⟨none, 0, none, false⟩ ["7"]).failures := by
  have hlen : (runBatch (fun _ _ => some "boom") ⟨none, 0, none, false⟩
      ["7"]).outcomes.length = 1 := by decide
  have hne : (runBatch (fun _ _ => some "boom") ⟨none, 0, none, false⟩
      ["7"]).outcomes ≠ [] := by
    intro h
    rw [h] at hlen
    simp at hlen
  have hid : ((runBatch (fun _ _ => some "boom") ⟨none, 0, none, false⟩
      ["7"]).outcomes.headI).id = "7" := by decide
  have h := retry_exhaustion_spec ⟨none, 0, none, false⟩
    (fun _ _ => some "boom") ["7"] "7" (fun _ => "boom") rfl (fun _ => rfl)
    _ (headI_mem_self hne) hid
  exact ⟨h.1, h.2.1, h.2.2.2.2⟩

/-- Witness for C2: `max_per_minute = 30` with zero fixed delay yields an
inter-item delay of exactly 2 seconds after the (successful) single item. -/
theorem inter_item_delay_witness :
    appliedDelay ((runBatch (fun _ _ => none) ⟨none, 0, some 30, false⟩
        ["1"]).outcomes.headI).interSleep = 2 ∧
      2 ≤ appliedDelay ((runBatch (fun _ _ => none) ⟨none, 0, some 30, false⟩
        ["1"]).outcomes.headI).interSleep := by
  have hlen : (runBatch (fun _ _ => none) ⟨none, 0, some 30, false⟩
      ["1"]).outcomes.length = 1 := by decide
  have hne : (runBatch (fun _ _ => none) ⟨none, 0, some 30, false⟩
      ["1"]).outcomes ≠ [] := by
    intro h
    rw [h] at hlen
    simp at hlen
  have h := inter_item_delay_spec ⟨none, 0, some 30, false⟩
    (fun _ _ => none) ["1"]
  have h1 := h.1 30 rfl (by norm_num) _ (headI_mem_self hne)
  have h3 := h.2.2 rfl rfl _ (headI_mem_self hne)
  refine ⟨?_, h3⟩
  rw [h1]
  norm_num [max_def]

/-- Witness for C3 (amended): `max_items = 1` over three always-succeeding
targets stops after the first success; only the first id is reported. -/
theorem max_items_positive_cutoff_witness :
    ((runBatch (fun _ _ => none) ⟨some 1, 0, none, false⟩
        ["1", "2", "3"]).updated : Int) ≤ 1 ∧
      (runBatch (fun _ _ => none) ⟨some 1, 0, none, false⟩
        ["1", "2", "3"]).outcomes.map (fun oc => oc.id) = ["1"] ∧
      (runBatch (fun _ _ => none) ⟨some 1, 0, none, false⟩
        ["1", "2", "3"]).updated = 1 := by
  have h := max_items_positive_cutoff_spec ⟨some 1, 0, none, false⟩
    (fun _ _ => none) ["1", "2", "3"] 1 rfl (by norm_num)
  refine ⟨h.2.1, ?_, ?_⟩
  · decide
  · decide

set_option maxRecDepth 100000 in
/-- Witness for C4 at a concrete 250-item server. -/
theorem enumerator_pagination_witness :
    (iterIdsFromFetch
      (sliceFetch (List.replicate 250 ⟨some "x", "t", none⟩) 100)
      100 none 10).calls = [0, 100, 200] :=
  (enumerator_pagination_spec (List.replicate 250 ⟨some "x", "t", none⟩)
    (by simp) 10 (by norm_num)).1

/-- Witness for C5: day 1's range selects exactly the item added at
exactly 00:00:00 of day 1, leaving the epoch-0 item untouched. -/
theorem select_range_witness :
    (selectRange [⟨some "a", "t", some 86400⟩, ⟨some "b", "t", some 0⟩]
        100 "" 1 1 true []).2 = 1 ∧
      getSel (selectRange [⟨some "a", "t", some 86400⟩,
        ⟨some "b", "t", some 0⟩] 100 "" 1 1 true []).1 "a" = some true := by
  have h := select_range_spec
    [⟨some "a", "t", some 86400⟩, ⟨some "b", "t", some 0⟩]
    100 "" 1 1 true [] (by norm_num) (by decide)
  constructor
  · rw [h.1]
    decide
  · have := h.2.1 ⟨some "a", "t", some 86400⟩ (by decide) (by decide)
    exact this

/-- Witness for C6: one succeeding and one always-failing target — the
batch completes, covers both, and reports the failure. -/
theorem batch_never_aborts_witness :
    (runBatch (fun rk _ => if rk = "2" then some "down" else none)
        ⟨none, 0, none, false⟩ ["1", "2"]).outcomes.map (fun oc => oc.id)
        = ["1", "2"] ∧
      (runBatch (fun rk _ => if rk = "2" then some "down" else none)
          ⟨none, 0, none, false⟩ ["1", "2"]).updated +
        (runBatch (fun rk _ => if rk = "2" then some "down" else none)
          ⟨none, 0, none, false⟩ ["1", "2"]).failures.length =
        (runBatch (fun rk _ => if rk = "2" then some "down" else none)
          ⟨none, 0, none, false⟩ ["1", "2"]).outcomes.length := by
  have h := batch_never_aborts_spec ⟨none, 0, none, false⟩
    (fun rk _ => if rk = "2" then some "down" else none) ["1", "2"] rfl
  exact ⟨h.2.1 rfl, h.2.2.1⟩

/-- Witness for C7: missing credentials exit 2 with no calls; valid
credentials over an empty catalog exit 0 with no update call. -/
theorem cli_empty_and_creds_witness :
    cliMain ⟨"", "t", none, 100, none, ⟨none, 0, none, false⟩⟩
        (fun _ => ([], 0)) (fun _ _ => none) 5 = ⟨2, [], [], none⟩ ∧
      (cliMain ⟨"u", "t", none, 100, none, ⟨none, 0, none, false⟩⟩
        (fun _ => ([], 0)) (fun _ _ => none) 5).exitCode = 0 ∧
      (cliMain ⟨"u", "t", none, 100, none, ⟨none, 0, none, false⟩⟩
        (fun _ => ([], 0)) (fun _ _ => none) 5).updateCalls = 0 := by
  have h1 := (cli_empty_and_creds_spec
    ⟨"", "t", none, 100, none, ⟨none, 0, none, false⟩⟩
    (fun _ => ([], 0)) (fun _ _ => none) 5).1 (Or.inl rfl)
  have h2 := (cli_empty_and_creds_spec
    ⟨"u", "t", none, 100, none, ⟨none, 0, none, false⟩⟩
    (fun _ => ([], 0)) (fun _ _ => none) 5).2 (by decide) (by decide)
    (by decide)
  exact ⟨h1, h2.1, h2.2.2.2⟩

/-- Witness for C8: dry-run over two matched ids with an always-raising
remote still prints both planned lines and makes zero update calls. -/
theorem cli_dry_run_witness :
    ((runBatch (fun _ _ => some "x") ⟨none, 0, none, true⟩
        ["1", "2"]).outcomes.map (fun oc => oc.calls)).sum = 0 ∧
      (runBatch (fun _ _ => some "x") ⟨none, 0, none, true⟩
        ["1", "2"]).outcomes.map (fun oc => oc.id) = ["1", "2"] ∧
      (runBatch (fun _ _ => some "x") ⟨none, 0, none, true⟩
        ["1", "2"]).failures = [] := by
  have h := cli_dry_run_spec ⟨none, 0, none, true⟩ (fun _ _ => some "x")
    ["1", "2"] rfl
  exact ⟨h.2.1, h.2.2.2 rfl, h.2.2.1⟩

/-- Witness for C9 (amended): `--dry-run --max-items 5` still prints a
planned line for both matched ids and never updates. -/
theorem dry_run_max_items_nonneg_witness :
    (runBatch (fun _ _ => none) ⟨some 5, 0, none, true⟩
        ["1", "2"]).outcomes.map (fun oc => oc.id) = ["1", "2"] ∧
      (runBatch (fun _ _ => none) ⟨some 5, 0, none, true⟩
        ["1", "2"]).updated = 0 := by
  have h := dry_run_max_items_nonneg_spec ⟨some 5, 0, none, true⟩
    (fun _ _ => none) ["1", "2"] 5 rfl rfl (by norm_num)
  exact ⟨h.1, h.2.1⟩

end Plex
